import Mathlib

/-!
Shallow embedding of the `conversation_explorer` package (parser.py,
models.py, explorer.py) of the pjlib repository, together with proofs
about the claims of its specification.

Modelling conventions:
* Python `datetime` instants are modelled as integers (`Timestamp := Int`);
  only their ordering and subtraction matter to the code under study.
  `datetime.now()` is passed in explicitly as a `now : Timestamp` argument.
* A decoded JSONL record is modelled by `RawLine`, which carries exactly the
  fields the parser reads: `type`, `timestamp`, `content`, `role`,
  `tool_name`, `is_error`, and the `error` entry of `tool_output`.
  Python truthiness of the relevant optional fields is modelled explicitly
  (`strTruthy`, `numTruthy`, `listTruthy`, `errTruthy`).
* The `timestamp` field is modelled by `TsField`: `absent` covers a missing
  or empty (falsy) string, `invalid` a string `datetime.fromisoformat`
  rejects, `valid t` a string parsing to instant `t`.
* The `error` entry of `tool_output` is modelled by `ErrField` (absent JSON
  key, JSON `null`, or a JSON string); `errMsgStr` mirrors
  `str(tool_output.get("error", "Unknown error"))`.
* A raw file is a `List LineData`: lines that fail JSON decoding
  (`LineData.invalid`) or are blank (`LineData.blank`) are skipped by the
  generator `_parse_jsonl_file`, modelled by `decodeLines`.
* Filesystem reads performed by the filter evaluator are modelled by an
  environment `env : String → Option String` mapping a file path to its
  text content (`none` models a read that raises).
* All functions are total, mirroring the fact that the Python code catches
  per-line exceptions and never propagates them out of a parse.
-/

namespace ConvExplorer

abbrev Timestamp := Int

/-- The `timestamp` field of a decoded record, as the parser sees it. -/
inductive TsField
  | absent
  | invalid
  | valid (t : Timestamp)
deriving DecidableEq, Repr

/-- The `error` entry of a `tool_result` record's `tool_output` mapping. -/
inductive ErrField
  | absent
  | null
  | str (s : String)
deriving DecidableEq, Repr

/-- One decoded JSONL record, restricted to the fields the parser reads. -/
structure RawLine where
  type? : Option String := none
  timestamp : TsField := .absent
  content : String := ""
  role : Option String := none
  tool_name : Option String := none
  is_error : Bool := false
  tool_output_error : ErrField := .absent
deriving DecidableEq, Repr

/-- Python truthiness of `data.get(field)` for an optional string field. -/
def strTruthy : Option String → Bool
  | some s => s ≠ ""
  | none => false

/-- Python truthiness of `data.get("tool_output", \x7b\x7d).get("error")`. -/
def errTruthy : ErrField → Bool
  | .str s => s ≠ ""
  | _ => false

/-- `str(data.get("tool_output", \x7b\x7d).get("error", "Unknown error"))`. -/
def errMsgStr : ErrField → String
  | .absent => "Unknown error"
  | .null => "None"
  | .str s => s

/-- models.MessageType -/
inductive MessageType
  | user
  | assistant
  | tool_use
  | tool_result
deriving DecidableEq, Repr

/-- models.ToolStatus -/
inductive ToolStatus
  | running
  | completed
  | error
deriving DecidableEq, Repr

/-- `Message.content`: a string for user/assistant messages, the whole
decoded record for tool_use/tool_result messages. -/
inductive MsgContent
  | text (s : String)
  | record (d : RawLine)
deriving DecidableEq, Repr

/-- models.Message -/
structure Message where
  type : MessageType
  timestamp : Timestamp
  content : MsgContent
  role : Option String := none
deriving DecidableEq, Repr

/-- models.ToolCall.  The `input` and `target` fields are carried by the
Python object but never read by any code under study after construction;
they are omitted from the embedding. -/
structure ToolCall where
  id : String
  name : String
  status : ToolStatus := .running
  start_time : Timestamp
  end_time : Option Timestamp := none
  error : Option String := none
deriving DecidableEq, Repr

/-- models.ConversationMetadata (minus `file_size_bytes`/`session_id`
provenance, which are passed through from arguments unchanged). -/
structure ConversationMetadata where
  session_id : String := ""
  file_path : String := ""
  start_time : Timestamp
  end_time : Option Timestamp := none
  message_count : Nat := 0
  tool_call_count : Nat := 0
  file_size_bytes : Nat := 0
  duration_seconds : Option Int := none
deriving DecidableEq, Repr

/-- models.Conversation -/
structure Conversation where
  metadata : ConversationMetadata
  messages : List Message := []
  tool_calls : List ToolCall := []
deriving DecidableEq, Repr

/-- TranscriptParser._parse_message_line -/
def parse_message_line (d : RawLine) : Option Message :=
  match d.type? with
  | none => none
  | some msg_type =>
    match d.timestamp with
    | .absent => none
    | .invalid => none
    | .valid t =>
      if msg_type = "user" then
        some { type := .user, timestamp := t, content := .text d.content }
      else if msg_type = "tool_use" then
        some { type := .tool_use, timestamp := t, content := .record d }
      else if msg_type = "tool_result" then
        some { type := .tool_result, timestamp := t, content := .record d }
      else
        some { type := .assistant, timestamp := t, content := .text d.content,
               role := d.role }

/-- The update applied to the matched ToolCall on a tool_result
(`matching_tool.end_time = ...; matching_tool.status = ...;
matching_tool.error = ...` in _process_tool_calls). -/
def closeMatching (d : RawLine) (t : Timestamp) (tc : ToolCall) : ToolCall :=
  { tc with
    end_time := some t
    status := if d.is_error then .error else .completed
    error := if d.is_error || errTruthy d.tool_output_error then
               some (errMsgStr d.tool_output_error)
             else tc.error }

/-- Scan the list in reverse insertion order for the first ToolCall whose
name matches and whose end_time is absent; apply `upd` to it.  Returns
`none` if no such call exists (the `matching_tool is None` case). -/
def closeLast? (toolName : String) (upd : ToolCall → ToolCall) :
    List ToolCall → Option (List ToolCall)
  | [] => none
  | tc :: rest =>
    match closeLast? toolName upd rest with
    | some rest' => some (tc :: rest')
    | none =>
      if tc.name = toolName ∧ tc.end_time = none then some (upd tc :: rest)
      else none

/-- TranscriptParser._process_tool_calls, as a pure update of the
tool-call list.  (The Python `tool_map` dict is written but never read, so
it is dropped from the embedding.) -/
def process_tool_calls (m : Message) (tool_calls : List ToolCall) :
    List ToolCall :=
  match m.type, m.content with
  | .tool_use, .record d =>
    if strTruthy d.tool_name then
      let toolName := d.tool_name.getD ""
      tool_calls ++ [{ id := toolName ++ "_" ++ toString m.timestamp,
                       name := toolName, start_time := m.timestamp }]
    else tool_calls
  | .tool_result, .record d =>
    if strTruthy d.tool_name then
      let toolName := d.tool_name.getD ""
      (closeLast? toolName (closeMatching d m.timestamp) tool_calls).getD
        tool_calls
    else tool_calls
  | _, _ => tool_calls

/-- One raw line of a JSONL file before decoding. -/
inductive LineData
  | invalid
  | blank
  | valid (d : RawLine)
deriving DecidableEq, Repr

/-- TranscriptParser._parse_jsonl_file: yields the successfully decoded
records, skipping blank lines and JSON decode errors. -/
def decodeLines : List LineData → List RawLine :=
  List.filterMap fun
    | .valid d => some d
    | _ => none

/-- The mutable state of the parse_transcript loop.  `start_time?` is
`none` while metadata.start_time still holds its `datetime.now()`
default. -/
structure ParseState where
  messages : List Message := []
  tool_calls : List ToolCall := []
  start_time? : Option Timestamp := none
  end_time? : Option Timestamp := none
deriving DecidableEq, Repr

/-- One iteration of the parse_transcript loop body, at 1-based decoded
line number `lineCount`. -/
def parseStep (lineCount : Nat) (st : ParseState) (d : RawLine) :
    ParseState :=
  match parse_message_line d with
  | none => st
  | some m =>
    { messages := st.messages ++ [m]
      tool_calls := process_tool_calls m st.tool_calls
      start_time? := if lineCount = 1 then some m.timestamp else st.start_time?
      end_time? := some m.timestamp }

/-- The parse_transcript loop over the decoded records. -/
def parseLoop (lineCount : Nat) (st : ParseState) :
    List RawLine → ParseState
  | [] => st
  | d :: rest => parseLoop (lineCount + 1) (parseStep (lineCount + 1) st d) rest

/-- TranscriptParser.parse_transcript.  `now` models `datetime.now()`,
`session_id`/`file_size` the values extracted from the filename and
`stat`. -/
def parse_transcript (now : Timestamp) (session_id file_path : String)
    (file_size : Nat) (file : List LineData) : Conversation :=
  let final := parseLoop 0 {} (decodeLines file)
  let start_time := final.start_time?.getD now
  { metadata :=
      { session_id := session_id
        file_path := file_path
        start_time := start_time
        end_time := final.end_time?
        message_count := final.messages.length
        tool_call_count := final.tool_calls.length
        file_size_bytes := file_size
        duration_seconds := final.end_time?.map (fun e => e - start_time) }
    messages := final.messages
    tool_calls := final.tool_calls }

/-- The mutable state of the get_transcript_metadata scan loop. -/
structure ScanState where
  start_time? : Option Timestamp := none
  end_time? : Option Timestamp := none
  message_count : Nat := 0
  tool_count : Nat := 0
deriving DecidableEq, Repr

/-- One iteration of the get_transcript_metadata loop body. -/
def scanStep (st : ScanState) (d : RawLine) : ScanState :=
  let st1 := { st with message_count := st.message_count + 1 }
  let st2 :=
    match d.timestamp with
    | .valid t =>
      { st1 with
        start_time? := if st1.start_time? = none then some t else st1.start_time?
        end_time? := some t }
    | _ => st1
  if d.type? = some "tool_use" then
    { st2 with tool_count := st2.tool_count + 1 }
  else st2

/-- TranscriptParser.get_transcript_metadata (the fast metadata scan). -/
def get_transcript_metadata (now : Timestamp) (session_id file_path : String)
    (file_size : Nat) (file : List LineData) : ConversationMetadata :=
  let st := (decodeLines file).foldl scanStep {}
  { session_id := session_id
    file_path := file_path
    start_time := st.start_time?.getD now
    end_time := st.end_time?
    message_count := st.message_count
    tool_call_count := st.tool_count
    file_size_bytes := file_size
    duration_seconds :=
      match st.start_time?, st.end_time? with
      | some s, some e => some (e - s)
      | _, _ => none }

/-- models.SearchFilter.  Durations and numeric bounds are modelled as
integers; only their ordering and zero-vs-nonzero truthiness matter to the
filter evaluator. -/
structure SearchFilter where
  text_query : Option String := none
  start_date : Option Timestamp := none
  end_date : Option Timestamp := none
  min_duration : Option Int := none
  max_duration : Option Int := none
  tools_used : Option (List String) := none
  min_messages : Option Int := none
  max_messages : Option Int := none
  has_errors : Option Bool := none
deriving DecidableEq, Repr

/-- Python truthiness of an optional numeric field (`0` is falsy). -/
def numTruthy : Option Int → Bool
  | some x => x ≠ 0
  | none => false

/-- Python truthiness of an optional list field (`[]` is falsy). -/
def listTruthy : Option (List String) → Bool
  | some l => !l.isEmpty
  | none => false

/-- Whether `needle` occurs at the start of `hay` (character lists). -/
def chLeads : List Char → List Char → Bool
  | [], _ => true
  | _ :: _, [] => false
  | a :: as, b :: bs => a == b && chLeads as bs

/-- Whether `needle` occurs contiguously anywhere in `hay`. -/
def chContainsSeq (needle : List Char) : List Char → Bool
  | [] => chLeads needle []
  | b :: bs => chLeads needle (b :: bs) || chContainsSeq needle bs

/-- The Python substring test `needle in hay`. -/
def strContains (hay needle : String) : Bool :=
  chContainsSeq needle.data hay.data

/-- `if filter_criteria.start_date and metadata.start_time < filter_criteria.start_date`
(a present datetime is always truthy). -/
def failsStartDate (m : ConversationMetadata) (fc : SearchFilter) : Bool :=
  match fc.start_date with
  | some sd => m.start_time < sd
  | none => false

/-- `if filter_criteria.end_date and metadata.start_time > filter_criteria.end_date` -/
def failsEndDate (m : ConversationMetadata) (fc : SearchFilter) : Bool :=
  match fc.end_date with
  | some ed => m.start_time > ed
  | none => false

/-- The min_duration early return of _matches_filter. -/
def failsMinDuration (m : ConversationMetadata) (fc : SearchFilter) : Bool :=
  match fc.min_duration with
  | some md =>
    md ≠ 0 && (match m.duration_seconds with
               | none => true
               | some dur => dur < md)
  | none => false

/-- The max_duration early return of _matches_filter. -/
def failsMaxDuration (m : ConversationMetadata) (fc : SearchFilter) : Bool :=
  match fc.max_duration with
  | some md =>
    md ≠ 0 && (match m.duration_seconds with
               | none => true
               | some dur => dur > md)
  | none => false

/-- The min_messages early return of _matches_filter. -/
def failsMinMessages (m : ConversationMetadata) (fc : SearchFilter) : Bool :=
  match fc.min_messages with
  | some mm => mm ≠ 0 && decide ((m.message_count : Int) < mm)
  | none => false

/-- The max_messages early return of _matches_filter. -/
def failsMaxMessages (m : ConversationMetadata) (fc : SearchFilter) : Bool :=
  match fc.max_messages with
  | some mm => mm ≠ 0 && decide ((m.message_count : Int) > mm)
  | none => false

/-- The text_query early return: reads the file at metadata.file_path via
`env`; a failing read (`none`) makes the check fail (the `except: return
False` branch). -/
def failsTextQuery (env : String → Option String)
    (m : ConversationMetadata) (fc : SearchFilter) : Bool :=
  match fc.text_query with
  | some q =>
    q ≠ "" && (match env m.file_path with
               | some content => !(strContains content.toLower q.toLower)
               | none => true)
  | none => false

/-- The tools_used early return: any listed tool name occurring as a
substring of the file content counts as a match. -/
def failsToolsUsed (env : String → Option String)
    (m : ConversationMetadata) (fc : SearchFilter) : Bool :=
  match fc.tools_used with
  | some tools =>
    !tools.isEmpty && (match env m.file_path with
                       | some content =>
                         !(tools.any fun t => strContains content t)
                       | none => true)
  | none => false

/-- ConversationExplorer._matches_filter: the early-return chain.  (The
`has_errors` field of SearchFilter is never consulted, exactly as in the
source.) -/
def matches_filter (env : String → Option String)
    (m : ConversationMetadata) (fc : SearchFilter) : Bool :=
  if failsStartDate m fc then false
  else if failsEndDate m fc then false
  else if failsMinDuration m fc then false
  else if failsMaxDuration m fc then false
  else if failsMinMessages m fc then false
  else if failsMaxMessages m fc then false
  else if failsTextQuery env m fc then false
  else if failsToolsUsed env m fc then false
  else true

/-! ### Concrete record shapes used in scenarios -/

/-- A `\x7b"type":"user","timestamp":t,"content":c\x7d` line. -/
def userLine (c : String) (t : Timestamp) : RawLine :=
  { type? := some "user", timestamp := .valid t, content := c }

/-- A `\x7b"type":"tool_use","timestamp":t,"tool_name":n\x7d` line. -/
def toolUseLine (n : String) (t : Timestamp) : RawLine :=
  { type? := some "tool_use", timestamp := .valid t, tool_name := some n }

/-- A `\x7b"type":"tool_result","timestamp":t,"tool_name":n\x7d` line. -/
def toolResultLine (n : String) (t : Timestamp) : RawLine :=
  { type? := some "tool_result", timestamp := .valid t, tool_name := some n }

/-- `orO a b` is `a` when present, else `b` (Python `a or b` on optionals
that are never falsy when present). -/
def orO : Option Timestamp → Option Timestamp → Option Timestamp
  | some x, _ => some x
  | none, b => b

/-! ### Basic lemmas about the classifier -/

theorem parse_message_line_timestamp {d : RawLine} {m : Message}
    (h : parse_message_line d = some m) :
    d.timestamp = TsField.valid m.timestamp := by
  unfold parse_message_line at h
  rcases hd : d.type? with _ | s <;> rw [hd] at h
  · exact absurd h (by simp)
  · rcases ht : d.timestamp with _ | _ | t <;> rw [ht] at h
    · exact absurd h (by simp)
    · exact absurd h (by simp)
    · dsimp only at h
      by_cases h1 : s = "user"
      · rw [if_pos h1] at h; cases h; rfl
      · rw [if_neg h1] at h
        by_cases h2 : s = "tool_use"
        · rw [if_pos h2] at h; cases h; rfl
        · rw [if_neg h2] at h
          by_cases h3 : s = "tool_result"
          · rw [if_pos h3] at h; cases h; rfl
          · rw [if_neg h3] at h; cases h; rfl

/-! ### Lemmas about the reverse-order scan `closeLast?` -/

theorem closeLast?_eq_none (n : String) (upd : ToolCall → ToolCall) :
    ∀ l : List ToolCall,
      (∀ tc ∈ l, ¬(tc.name = n ∧ tc.end_time = none)) →
      closeLast? n upd l = none := by
  intro l
  induction l with
  | nil => intro _; rfl
  | cons tc rest ih =>
    intro h
    simp only [closeLast?]
    rw [ih (fun x hx => h x (List.mem_cons_of_mem _ hx))]
    exact if_neg (h tc (List.mem_cons_self _ _))

theorem closeLast?_append (n : String) (upd : ToolCall → ToolCall)
    (l2 : List ToolCall)
    (h2 : ∀ tc' ∈ l2, ¬(tc'.name = n ∧ tc'.end_time = none))
    (tc : ToolCall) (htc : tc.name = n) (hte : tc.end_time = none) :
    ∀ l1, closeLast? n upd (l1 ++ tc :: l2) = some (l1 ++ upd tc :: l2) := by
  intro l1
  induction l1 with
  | nil =>
    simp only [List.nil_append, closeLast?]
    rw [closeLast?_eq_none n upd l2 h2]
    exact if_pos ⟨htc, hte⟩
  | cons a l1' ih =>
    simp only [List.cons_append, closeLast?, List.append_eq]
    rw [ih]

theorem mem_closeLast? (n : String) (upd : ToolCall → ToolCall) :
    ∀ (l l' : List ToolCall), closeLast? n upd l = some l' →
      ∀ x ∈ l', x ∈ l ∨
        ∃ tc, tc ∈ l ∧ tc.name = n ∧ tc.end_time = none ∧ x = upd tc := by
  intro l
  induction l with
  | nil => intro l' h; exact absurd h (by simp [closeLast?])
  | cons tc rest ih =>
    intro l' h x hx
    simp only [closeLast?] at h
    rcases hr : closeLast? n upd rest with _ | rest' <;> rw [hr] at h
    · by_cases hc : tc.name = n ∧ tc.end_time = none
      · rw [if_pos hc] at h
        cases h
        rcases List.mem_cons.mp hx with h1 | h1
        · exact Or.inr ⟨tc, List.mem_cons_self _ _, hc.1, hc.2, h1⟩
        · exact Or.inl (List.mem_cons_of_mem _ h1)
      · rw [if_neg hc] at h
        exact absurd h (by simp)
    · cases h
      rcases List.mem_cons.mp hx with h1 | h1
      · exact Or.inl (by rw [h1]; exact List.mem_cons_self _ _)
      · rcases ih rest' hr x h1 with h2 | ⟨tc', htc', h3, h4, h5⟩
        · exact Or.inl (List.mem_cons_of_mem _ h2)
        · exact Or.inr ⟨tc', List.mem_cons_of_mem _ htc', h3, h4, h5⟩

theorem closeLast?_map_key (n : String) (upd : ToolCall → ToolCall)
    (hupd : ∀ tc, ((upd tc).name, (upd tc).start_time) =
                  (tc.name, tc.start_time)) :
    ∀ (l l' : List ToolCall), closeLast? n upd l = some l' →
      l'.map (fun tc => (tc.name, tc.start_time)) =
      l.map (fun tc => (tc.name, tc.start_time)) := by
  intro l
  induction l with
  | nil => intro l' h; exact absurd h (by simp [closeLast?])
  | cons tc rest ih =>
    intro l' h
    simp only [closeLast?] at h
    rcases hr : closeLast? n upd rest with _ | rest' <;> rw [hr] at h
    · by_cases hc : tc.name = n ∧ tc.end_time = none
      · rw [if_pos hc] at h
        cases h
        simp [hupd tc]
      · rw [if_neg hc] at h
        exact absurd h (by simp)
    · cases h
      simp [ih rest' hr]

/-! ### Lemmas about the full-parse loop -/

/-- The parseable timestamp of a decoded line, if any. -/
def tsOf? (d : RawLine) : Option Timestamp :=
  match d.timestamp with
  | .valid t => some t
  | _ => none

/-- The timestamp of a decoded line's classified message, if accepted. -/
def msgTs? (d : RawLine) : Option Timestamp :=
  (parse_message_line d).map Message.timestamp

/-- The timestamp of the last decoded line accepted by the classifier. -/
def lastTs? : List RawLine → Option Timestamp
  | [] => none
  | d :: rest => orO (lastTs? rest) (msgTs? d)

/-- The first parseable timestamp among the decoded lines (what the fast
scan uses for `start_time`). -/
def firstValidTs? : List RawLine → Option Timestamp
  | [] => none
  | d :: rest => orO (tsOf? d) (firstValidTs? rest)

/-- The last parseable timestamp among the decoded lines (what the fast
scan uses for `end_time`). -/
def lastValidTs? : List RawLine → Option Timestamp
  | [] => none
  | d :: rest => orO (lastValidTs? rest) (tsOf? d)

theorem orO_some (x : Timestamp) (b : Option Timestamp) :
    orO (some x) b = some x := rfl

theorem orO_none (b : Option Timestamp) : orO none b = b := rfl

theorem orO_none_right (a : Option Timestamp) : orO a none = a := by
  cases a <;> rfl

theorem orO_assoc (a b c : Option Timestamp) :
    orO (orO a b) c = orO a (orO b c) := by
  cases a <;> cases b <;> rfl

theorem parseLoop_start_time :
    ∀ (lines : List RawLine) (lc : Nat) (st : ParseState), 1 ≤ lc →
      (parseLoop lc st lines).start_time? = st.start_time? := by
  intro lines
  induction lines with
  | nil => intro lc st _; rfl
  | cons d rest ih =>
    intro lc st hlc
    show (parseLoop (lc + 1) (parseStep (lc + 1) st d) rest).start_time? = _
    rw [ih (lc + 1) _ (by omega)]
    unfold parseStep
    cases hp : parse_message_line d
    · rfl
    · dsimp only
      rw [if_neg (by omega : ¬(lc + 1 = 1))]

theorem parseLoop_messages :
    ∀ (lines : List RawLine) (lc : Nat) (st : ParseState),
      ∃ tail, (parseLoop lc st lines).messages = st.messages ++ tail := by
  intro lines
  induction lines with
  | nil => intro lc st; exact ⟨[], (List.append_nil _).symm⟩
  | cons d rest ih =>
    intro lc st
    show ∃ tail, (parseLoop (lc + 1) (parseStep (lc + 1) st d) rest).messages = _
    rcases ih (lc + 1) (parseStep (lc + 1) st d) with ⟨tail, htail⟩
    rw [htail]
    cases hp : parse_message_line d with
    | none => exact ⟨tail, by simp [parseStep, hp]⟩
    | some m => exact ⟨m :: tail, by simp [parseStep, hp]⟩

theorem parseLoop_end_time :
    ∀ (lines : List RawLine) (lc : Nat) (st : ParseState),
      (parseLoop lc st lines).end_time? = orO (lastTs? lines) st.end_time? := by
  intro lines
  induction lines with
  | nil => intro lc st; rfl
  | cons d rest ih =>
    intro lc st
    show (parseLoop (lc + 1) (parseStep (lc + 1) st d) rest).end_time? = _
    rw [ih (lc + 1) (parseStep (lc + 1) st d)]
    show _ = orO (orO (lastTs? rest) (msgTs? d)) st.end_time?
    rw [orO_assoc]
    cases hp : parse_message_line d with
    | none => simp [parseStep, msgTs?, hp, orO_none]
    | some m => simp [parseStep, msgTs?, hp, orO_some]

theorem parseLoop_msg_count :
    ∀ (lines : List RawLine) (lc : Nat) (st : ParseState),
      (parseLoop lc st lines).messages.length =
        st.messages.length +
          lines.countP (fun d => (parse_message_line d).isSome) := by
  intro lines
  induction lines with
  | nil => intro lc st; simp [parseLoop, List.countP_nil]
  | cons d rest ih =>
    intro lc st
    show (parseLoop (lc + 1) (parseStep (lc + 1) st d) rest).messages.length = _
    rw [ih (lc + 1) (parseStep (lc + 1) st d)]
    rw [List.countP_cons]
    cases hp : parse_message_line d with
    | none => simp [parseStep, hp]
    | some m => simp [parseStep, hp]; omega

/-! ### Lemmas about the fast-scan loop -/

theorem scanStep_message_count (st : ScanState) (d : RawLine) :
    (scanStep st d).message_count = st.message_count + 1 := by
  unfold scanStep
  cases d.timestamp <;> dsimp only <;> split <;> rfl

theorem scanStep_start_time (st : ScanState) (d : RawLine) :
    (scanStep st d).start_time? = orO st.start_time? (tsOf? d) := by
  unfold scanStep tsOf?
  cases d.timestamp <;> cases hs : st.start_time? <;> dsimp only <;>
    simp [hs, orO] <;> split <;> rfl

theorem scanStep_end_time (st : ScanState) (d : RawLine) :
    (scanStep st d).end_time? = orO (tsOf? d) st.end_time? := by
  unfold scanStep tsOf?
  cases d.timestamp <;> dsimp only <;> split <;> rfl

theorem scan_message_count :
    ∀ (lines : List RawLine) (st : ScanState),
      (lines.foldl scanStep st).message_count =
        st.message_count + lines.length := by
  intro lines
  induction lines with
  | nil => intro st; rfl
  | cons d rest ih =>
    intro st
    show ((rest).foldl scanStep (scanStep st d)).message_count = _
    rw [ih (scanStep st d), scanStep_message_count]
    simp [List.length_cons]
    omega

theorem scan_start_time :
    ∀ (lines : List RawLine) (st : ScanState),
      (lines.foldl scanStep st).start_time? =
        orO st.start_time? (firstValidTs? lines) := by
  intro lines
  induction lines with
  | nil => intro st; exact (orO_none_right _).symm
  | cons d rest ih =>
    intro st
    show ((rest).foldl scanStep (scanStep st d)).start_time? = _
    rw [ih (scanStep st d), scanStep_start_time]
    show _ = orO st.start_time? (orO (tsOf? d) (firstValidTs? rest))
    rw [orO_assoc]

theorem scan_end_time :
    ∀ (lines : List RawLine) (st : ScanState),
      (lines.foldl scanStep st).end_time? =
        orO (lastValidTs? lines) st.end_time? := by
  intro lines
  induction lines with
  | nil => intro st; rfl
  | cons d rest ih =>
    intro st
    show ((rest).foldl scanStep (scanStep st d)).end_time? = _
    rw [ih (scanStep st d), scanStep_end_time]
    show _ = orO (orO (lastValidTs? rest) (tsOf? d)) st.end_time?
    rw [orO_assoc]

theorem accepted_tsOf {d : RawLine} {m : Message}
    (hp : parse_message_line d = some m) : tsOf? d = some m.timestamp := by
  unfold tsOf?
  rw [parse_message_line_timestamp hp]

theorem lastTs_eq_lastValid :
    ∀ lines : List RawLine,
      (∀ d ∈ lines, (parse_message_line d).isSome) →
      lastTs? lines = lastValidTs? lines := by
  intro lines
  induction lines with
  | nil => intro _; rfl
  | cons d rest ih =>
    intro h
    have hd : (parse_message_line d).isSome :=
      h d (List.mem_cons_self _ _)
    rcases hp : parse_message_line d with _ | m
    · rw [hp] at hd; exact absurd hd (by simp)
    · show orO (lastTs? rest) (msgTs? d) = orO (lastValidTs? rest) (tsOf? d)
      rw [accepted_tsOf hp]
      unfold msgTs?
      rw [hp]
      rw [ih (fun x hx => h x (List.mem_cons_of_mem _ hx))]
      rfl

/-! ### Tool-call creation bookkeeping -/

/-- The (name, invocation time) key a single classified message contributes
to the tool-call list: one entry for a named tool_use, none otherwise. -/
def msgToolUseKey (m : Message) : List (String × Timestamp) :=
  match m.type, m.content with
  | .tool_use, .record d =>
    if strTruthy d.tool_name then [(d.tool_name.getD "", m.timestamp)] else []
  | _, _ => []

/-- The (name, invocation time) keys of the accepted tool_use records that
carry a tool_name, in file order. -/
def namedToolUseEvents : List RawLine → List (String × Timestamp)
  | [] => []
  | d :: rest =>
    (match parse_message_line d with
     | some m => msgToolUseKey m
     | none => []) ++ namedToolUseEvents rest

theorem closeMatching_key (d : RawLine) (t : Timestamp) (tc : ToolCall) :
    ((closeMatching d t tc).name, (closeMatching d t tc).start_time) =
      (tc.name, tc.start_time) := rfl

theorem process_tool_calls_map_key (m : Message) (tcs : List ToolCall) :
    (process_tool_calls m tcs).map (fun tc => (tc.name, tc.start_time)) =
      tcs.map (fun tc => (tc.name, tc.start_time)) ++ msgToolUseKey m := by
  rcases hty : m.type <;> rcases hc : m.content with s | d <;>
    simp only [process_tool_calls, msgToolUseKey, hty, hc, List.append_nil]
  case tool_use =>
    by_cases hn : strTruthy d.tool_name
    · rw [if_pos hn, if_pos hn]
      simp
    · rw [if_neg hn, if_neg hn]
      simp
  case tool_result =>
    by_cases hn : strTruthy d.tool_name
    · rw [if_pos hn]
      rcases hm : closeLast? (d.tool_name.getD "") (closeMatching d m.timestamp)
          tcs with _ | l'
      · rfl
      · exact closeLast?_map_key _ _ (fun tc => closeMatching_key d m.timestamp tc)
          tcs l' hm
    · rw [if_neg hn]

theorem parseLoop_tool_calls_key :
    ∀ (lines : List RawLine) (lc : Nat) (st : ParseState),
      (parseLoop lc st lines).tool_calls.map (fun tc => (tc.name, tc.start_time)) =
        st.tool_calls.map (fun tc => (tc.name, tc.start_time)) ++
          namedToolUseEvents lines := by
  intro lines
  induction lines with
  | nil => intro lc st; simp [parseLoop, namedToolUseEvents]
  | cons d rest ih =>
    intro lc st
    show (parseLoop (lc + 1) (parseStep (lc + 1) st d) rest).tool_calls.map _ = _
    rw [ih (lc + 1) (parseStep (lc + 1) st d)]
    cases hp : parse_message_line d with
    | none => simp [parseStep, hp, namedToolUseEvents]
    | some m =>
      simp only [parseStep, hp, namedToolUseEvents]
      rw [process_tool_calls_map_key]
      simp

/-! ### Invariant machinery for the correlator -/

/-- The timestamps of the accepted messages, in file order. -/
def acceptedStamps (lines : List RawLine) : List Timestamp :=
  lines.filterMap msgTs?

theorem closeMatching_start (d : RawLine) (t : Timestamp) (tc : ToolCall) :
    (closeMatching d t tc).start_time = tc.start_time := rfl

theorem closeMatching_end (d : RawLine) (t : Timestamp) (tc : ToolCall) :
    (closeMatching d t tc).end_time = some t := rfl

theorem closeMatching_status_ne_running (d : RawLine) (t : Timestamp)
    (tc : ToolCall) : (closeMatching d t tc).status ≠ .running := by
  rcases h : d.is_error <;> simp [closeMatching, h]

theorem mem_process_tool_calls (m : Message) (tcs : List ToolCall) :
    ∀ x ∈ process_tool_calls m tcs,
      x ∈ tcs ∨
      (x.start_time = m.timestamp ∧ x.end_time = none ∧ x.status = .running) ∨
      (∃ tc, tc ∈ tcs ∧ tc.end_time = none ∧
        ∃ d : RawLine, x = closeMatching d m.timestamp tc) := by
  intro x hx
  rcases hty : m.type <;> rcases hc : m.content with s | d <;>
    simp only [process_tool_calls, hty, hc] at hx
  case user.text => exact Or.inl hx
  case user.record => exact Or.inl hx
  case assistant.text => exact Or.inl hx
  case assistant.record => exact Or.inl hx
  case tool_use.text => exact Or.inl hx
  case tool_result.text => exact Or.inl hx
  case tool_use.record =>
    by_cases hn : strTruthy d.tool_name
    · rw [if_pos hn] at hx
      rcases List.mem_append.mp hx with h1 | h1
      · exact Or.inl h1
      · rcases List.mem_singleton.mp h1 with rfl
        exact Or.inr (Or.inl ⟨rfl, rfl, rfl⟩)
    · rw [if_neg hn] at hx
      exact Or.inl hx
  case tool_result.record =>
    by_cases hn : strTruthy d.tool_name
    · rw [if_pos hn] at hx
      rcases hm : closeLast? (d.tool_name.getD "") (closeMatching d m.timestamp)
          tcs with _ | l'
      · rw [hm] at hx
        exact Or.inl hx
      · rw [hm] at hx
        rcases mem_closeLast? _ _ tcs l' hm x hx with h1 | ⟨tc, htc, _, hopen, hupd⟩
        · exact Or.inl h1
        · exact Or.inr (Or.inr ⟨tc, htc, hopen, d, hupd⟩)
    · rw [if_neg hn] at hx
      exact Or.inl hx

theorem parseLoop_running_open :
    ∀ (lines : List RawLine) (lc : Nat) (st : ParseState),
      (∀ tc ∈ st.tool_calls, tc.status = .running → tc.end_time = none) →
      ∀ tc ∈ (parseLoop lc st lines).tool_calls,
        tc.status = .running → tc.end_time = none := by
  intro lines
  induction lines with
  | nil => intro lc st h; exact h
  | cons d rest ih =>
    intro lc st h
    show ∀ tc ∈ (parseLoop (lc + 1) (parseStep (lc + 1) st d) rest).tool_calls, _
    apply ih
    cases hp : parse_message_line d with
    | none => simpa [parseStep, hp] using h
    | some m =>
      intro x hx
      have hx' : x ∈ process_tool_calls m st.tool_calls := by
        simpa [parseStep, hp] using hx
      rcases mem_process_tool_calls m st.tool_calls x hx' with
        h1 | ⟨_, hend, _⟩ | ⟨tc, _, _, d', rfl⟩
      · exact h x h1
      · exact fun _ => hend
      · exact fun hrun => absurd hrun (closeMatching_status_ne_running d' _ tc)

theorem acceptedStamps_cons_none {d : RawLine} (rest : List RawLine)
    (hp : parse_message_line d = none) :
    acceptedStamps (d :: rest) = acceptedStamps rest := by
  simp [acceptedStamps, msgTs?, hp]

theorem acceptedStamps_cons_some {d : RawLine} {m : Message}
    (rest : List RawLine) (hp : parse_message_line d = some m) :
    acceptedStamps (d :: rest) = m.timestamp :: acceptedStamps rest := by
  simp [acceptedStamps, msgTs?, hp]

theorem parseLoop_end_after_start :
    ∀ (lines : List RawLine) (lc : Nat) (st : ParseState),
      List.Pairwise (· ≤ ·) (acceptedStamps lines) →
      (∀ tc ∈ st.tool_calls,
        (∀ e, tc.end_time = some e → tc.start_time ≤ e) ∧
        (tc.end_time = none →
          ∀ u ∈ acceptedStamps lines, tc.start_time ≤ u)) →
      ∀ tc ∈ (parseLoop lc st lines).tool_calls,
        ∀ e, tc.end_time = some e → tc.start_time ≤ e := by
  intro lines
  induction lines with
  | nil => intro lc st _ h; exact fun tc htc => (h tc htc).1
  | cons d rest ih =>
    intro lc st hpair h
    show ∀ tc ∈ (parseLoop (lc + 1) (parseStep (lc + 1) st d) rest).tool_calls, _
    cases hp : parse_message_line d with
    | none =>
      rw [acceptedStamps_cons_none rest hp] at hpair h
      apply ih (lc + 1) _ hpair
      simpa [parseStep, hp] using h
    | some m =>
      rw [acceptedStamps_cons_some rest hp] at hpair h
      rcases List.pairwise_cons.mp hpair with ⟨hu, hpair'⟩
      apply ih (lc + 1) _ hpair'
      intro x hx
      have hx' : x ∈ process_tool_calls m st.tool_calls := by
        simpa [parseStep, hp] using hx
      rcases mem_process_tool_calls m st.tool_calls x hx' with
        h1 | ⟨hstart, hend, _⟩ | ⟨tc, htc, hopen, d', rfl⟩
      · refine ⟨(h x h1).1, fun hop u hu' => ?_⟩
        exact (h x h1).2 hop u (List.mem_cons_of_mem _ hu')
      · refine ⟨fun e he => absurd (hend ▸ he) (by simp), fun _ u hu' => ?_⟩
        rw [hstart]
        exact hu u hu'
      · constructor
        · intro e he
          rw [closeMatching_end] at he
          cases he
          rw [closeMatching_start]
          exact (h tc htc).2 hopen m.timestamp (List.mem_cons_self _ _)
        · intro hop
          rw [closeMatching_end] at hop
          exact absurd hop (by simp)

/-- Shared characterization of a successful match: a tool_result named `n`
applied to `l1 ++ tc :: l2`, where `tc` is open with name `n` and no open
call named `n` occurs in `l2`, updates exactly `tc` via `closeMatching`. -/
theorem process_result_match (m : Message) (d : RawLine) (n : String)
    (l1 l2 : List ToolCall) (tc : ToolCall)
    (hty : m.type = .tool_result) (hc : m.content = .record d)
    (hn : d.tool_name = some n) (hne : n ≠ "")
    (htc : tc.name = n) (hte : tc.end_time = none)
    (h2 : ∀ tc' ∈ l2, ¬(tc'.name = n ∧ tc'.end_time = none)) :
    process_tool_calls m (l1 ++ tc :: l2) =
      l1 ++ closeMatching d m.timestamp tc :: l2 := by
  have hs : strTruthy d.tool_name = true := by
    rw [hn]; simp [strTruthy, hne]
  simp only [process_tool_calls, hty, hc, hs, if_true]
  have hgetD : d.tool_name.getD "" = n := by rw [hn]; rfl
  rw [hgetD, closeLast?_append n _ l2 h2 tc htc hte l1]
  rfl

/-! ### Claim C2 -/

/-- C2: LIFO correlation.  A tool_result with name `n` closes the
most-recently-opened ToolCall of that name: if the list splits as
`l1 ++ tc :: l2` with `tc` an open call named `n` and no open call named
`n` in the suffix `l2` (i.e. `tc` is the first hit of the reverse
insertion-order scan), exactly `tc` is closed and every other element is
unchanged.  In particular, for a session tool_use(A)@t1, tool_use(A)@t2,
tool_result(A)@t3, the call opened at t2 is closed with end_time t3 while
the call opened at t1 stays open. -/
theorem c2_lifo_correlation :
    (∀ (m : Message) (d : RawLine) (n : String) (l1 l2 : List ToolCall)
        (tc : ToolCall),
      m.type = .tool_result → m.content = .record d →
      d.tool_name = some n → n ≠ "" →
      tc.name = n → tc.end_time = none →
      (∀ tc' ∈ l2, ¬(tc'.name = n ∧ tc'.end_time = none)) →
      process_tool_calls m (l1 ++ tc :: l2) =
        l1 ++ closeMatching d m.timestamp tc :: l2) ∧
    (∀ (now : Timestamp) (sid fp : String) (fs : Nat) (t1 t2 t3 : Timestamp),
      (parse_transcript now sid fp fs
        [.valid (toolUseLine "A" t1), .valid (toolUseLine "A" t2),
         .valid (toolResultLine "A" t3)]).tool_calls =
      [{ id := "A" ++ "_" ++ toString t1, name := "A", status := .running,
         start_time := t1, end_time := none, error := none },
       { id := "A" ++ "_" ++ toString t2, name := "A", status := .completed,
         start_time := t2, end_time := some t3, error := none }]) := by
  constructor
  · exact process_result_match
  · intro now sid fp fs t1 t2 t3
    rfl

/-- Witness for C2 at a concrete input: the reverse scan closes the later
of two open calls named "A". -/
theorem c2_lifo_correlation_witness :
    process_tool_calls
      { type := .tool_result, timestamp := 3,
        content := .record (toolResultLine "A" 3) }
      ([{ id := "A_1", name := "A", start_time := 1 }] ++
        { id := "A_2", name := "A", start_time := 2 } :: []) =
    [{ id := "A_1", name := "A", start_time := 1 }] ++
      closeMatching (toolResultLine "A" 3) 3
        { id := "A_2", name := "A", start_time := 2 } :: [] :=
  c2_lifo_correlation.1 _ _ "A" _ _ _ rfl rfl rfl (by decide) rfl rfl
    (by simp)

/-! ### Claim C3 -/

/-- C3: cardinality of tool-call creation.  The full parse produces
exactly one ToolCall per accepted tool_use record carrying a (truthy)
tool_name, in insertion order: the (name, invocation-time) keys of the
produced ToolCall list equal the keys of the named tool_use records in
file order, and in particular the counts agree; unnamed tool_use records
contribute nothing. -/
theorem c3_toolcall_cardinality :
    ∀ (now : Timestamp) (sid fp : String) (fs : Nat) (file : List LineData),
      (parse_transcript now sid fp fs file).tool_calls.map
          (fun tc => (tc.name, tc.start_time)) =
        namedToolUseEvents (decodeLines file) ∧
      (parse_transcript now sid fp fs file).tool_calls.length =
        (namedToolUseEvents (decodeLines file)).length := by
  intro now sid fp fs file
  have h := parseLoop_tool_calls_key (decodeLines file) 0 {}
  have h1 : (parse_transcript now sid fp fs file).tool_calls.map
      (fun tc => (tc.name, tc.start_time)) =
      namedToolUseEvents (decodeLines file) := by
    simpa [parse_transcript] using h
  refine ⟨h1, ?_⟩
  calc (parse_transcript now sid fp fs file).tool_calls.length
      = ((parse_transcript now sid fp fs file).tool_calls.map
          (fun tc => (tc.name, tc.start_time))).length :=
        (List.length_map _ _).symm
    _ = (namedToolUseEvents (decodeLines file)).length := by rw [h1]

/-! ### Claim C6 -/

/-- C6: orphaned results are dropped.  A tool_result whose name matches no
open ToolCall leaves the tool-call list unchanged, and a file containing
only a tool_result record parses to a Conversation with zero ToolCalls. -/
theorem c6_orphan_result_dropped :
    (∀ (m : Message) (d : RawLine) (tcs : List ToolCall),
      m.type = .tool_result → m.content = .record d →
      (∀ tc ∈ tcs, ¬(tc.name = d.tool_name.getD "" ∧ tc.end_time = none)) →
      process_tool_calls m tcs = tcs) ∧
    (∀ (now : Timestamp) (sid fp : String) (fs : Nat) (n : String)
        (t : Timestamp),
      (parse_transcript now sid fp fs
        [.valid (toolResultLine n t)]).tool_calls = []) := by
  constructor
  · intro m d tcs hty hc h
    simp only [process_tool_calls, hty, hc]
    by_cases hs : strTruthy d.tool_name
    · rw [if_pos hs, closeLast?_eq_none _ _ tcs h]
      rfl
    · rw [if_neg hs]
  · intro now sid fp fs n t
    show (parseLoop 0 {} (decodeLines [.valid (toolResultLine n t)])).tool_calls
      = []
    show (parseStep 1 {} (toolResultLine n t)).tool_calls = []
    have hp : parse_message_line (toolResultLine n t) =
        some { type := .tool_result, timestamp := t,
               content := .record (toolResultLine n t) } := rfl
    simp only [parseStep, hp]
    simp only [process_tool_calls]
    by_cases hs : strTruthy (toolResultLine n t).tool_name
    · simp [hs, closeLast?]
    · simp [hs]

/-- Witness for C6 at a concrete input: a result named "B" does not touch
a list whose only call named "B" is already closed. -/
theorem c6_orphan_result_dropped_witness :
    process_tool_calls
      { type := .tool_result, timestamp := 9,
        content := .record (toolResultLine "B" 9) }
      [{ id := "B_1", name := "B", status := .completed, start_time := 1,
         end_time := some 2 }] =
    [{ id := "B_1", name := "B", status := .completed, start_time := 1,
       end_time := some 2 }] :=
  c6_orphan_result_dropped.1 _ _ _ rfl rfl (by decide)

/-! ### Claim C5 -/

/-- C5 counterexample: with out-of-order timestamps (tool_use at 100,
tool_result at 50) the full parse produces a ToolCall whose end_time 50 is
strictly smaller than its start_time 100, so the claimed invariant
`end_time ≥ start_time` does not hold for every parsed file. -/
theorem c5_counterexample :
    (parse_transcript 0 "s" "p" 0
      [.valid (toolUseLine "A" 100),
       .valid (toolResultLine "A" 50)]).tool_calls =
      [{ id := "A" ++ "_" ++ toString (100 : Int), name := "A",
         status := .completed, start_time := 100, end_time := some 50 }] ∧
    ¬(100 ≤ (50 : Int)) :=
  ⟨rfl, by decide⟩

/-- C5 amended: a ToolCall with status running never has an end_time
(this part holds unconditionally), and whenever the accepted messages'
timestamps are monotonically non-decreasing, every ToolCall's end_time,
when present, is ≥ its start_time. -/
theorem c5_toolcall_time_invariant :
    ∀ (now : Timestamp) (sid fp : String) (fs : Nat) (file : List LineData),
      (∀ tc ∈ (parse_transcript now sid fp fs file).tool_calls,
        tc.status = .running → tc.end_time = none) ∧
      (List.Pairwise (· ≤ ·) (acceptedStamps (decodeLines file)) →
        ∀ tc ∈ (parse_transcript now sid fp fs file).tool_calls,
          ∀ e, tc.end_time = some e → tc.start_time ≤ e) := by
  intro now sid fp fs file
  have hcalls : (parse_transcript now sid fp fs file).tool_calls =
      (parseLoop 0 {} (decodeLines file)).tool_calls := rfl
  constructor
  · rw [hcalls]
    exact parseLoop_running_open (decodeLines file) 0 {} (by simp)
  · intro hpair
    rw [hcalls]
    exact parseLoop_end_after_start (decodeLines file) 0 {} hpair (by simp)

/-- Witness for C5 at a concrete input: in a chronological file the
closed call satisfies start_time ≤ end_time, and a running call has no
end_time. -/
theorem c5_toolcall_time_invariant_witness :
    ToolCall.start_time
      { id := "A" ++ "_" ++ toString (1 : Int), name := "A",
        status := .completed, start_time := 1, end_time := some 3,
        error := none } ≤ 3 :=
  (c5_toolcall_time_invariant 0 "w" "w" 0
    [.valid (toolUseLine "A" 1), .valid (toolResultLine "A" 3)]).2
    (by decide) _ (by decide) 3 rfl

/-! ### Claim C7 -/

/-- C7 counterexample: a file whose first decoded line carries a type but
no timestamp (so it is dropped by the classifier) followed by an accepted
user line at time 5 ends with metadata.start_time = 0 (the now-default),
not 5, although the parse accepted a message with timestamp 5. -/
theorem c7_counterexample :
    (parse_transcript 0 "s" "p" 0
      [.valid { type? := some "user" },
       .valid (userLine "hi" 5)]).messages.map Message.timestamp = [5] ∧
    (parse_transcript 0 "s" "p" 0
      [.valid { type? := some "user" },
       .valid (userLine "hi" 5)]).metadata.start_time = 0 ∧
    (0 : Int) ≠ 5 :=
  ⟨rfl, rfl, by decide⟩

/-- C7 amended: start_time equals the timestamp of the first accepted
message whenever the FIRST successfully decoded line is itself accepted by
the classifier (and that message heads the message list); when the first
decoded line is dropped, the current-time default survives even if later
lines are accepted. -/
theorem c7_first_line_start_time :
    ∀ (now : Timestamp) (sid fp : String) (fs : Nat) (file : List LineData)
      (d : RawLine) (rest : List RawLine) (m : Message),
      decodeLines file = d :: rest →
      parse_message_line d = some m →
      (parse_transcript now sid fp fs file).metadata.start_time =
        m.timestamp ∧
      (parse_transcript now sid fp fs file).messages.head? = some m := by
  intro now sid fp fs file d rest m hdec hp
  have e1 : (parse_transcript now sid fp fs file).metadata.start_time =
      ((parseLoop 0 {} (decodeLines file)).start_time?).getD now := rfl
  have e2 : (parse_transcript now sid fp fs file).messages =
      (parseLoop 0 {} (decodeLines file)).messages := rfl
  rw [hdec] at e1 e2
  have hstep : parseStep 1 ({} : ParseState) d =
      { messages := [m], tool_calls := process_tool_calls m [],
        start_time? := some m.timestamp, end_time? := some m.timestamp } := by
    simp [parseStep, hp]
  have hloop : parseLoop 0 ({} : ParseState) (d :: rest) =
      parseLoop 1 (parseStep 1 {} d) rest := rfl
  rw [hloop, hstep] at e1 e2
  constructor
  · rw [e1, parseLoop_start_time rest 1 _ (le_refl 1)]
    rfl
  · rcases parseLoop_messages rest 1
      ⟨[m], process_tool_calls m [], some m.timestamp, some m.timestamp⟩ with
      ⟨tail, htail⟩
    rw [e2, htail]
    rfl

/-- Witness for C7 at a concrete input: a blank first raw line does not
count (it is skipped by the decoder, not the classifier), so the first
decoded line is the accepted user line and start_time is its timestamp. -/
theorem c7_first_line_start_time_witness :
    (parse_transcript 0 "w" "w" 0
      [.blank, .valid (userLine "hi" 5)]).metadata.start_time =
      Message.timestamp
        { type := .user, timestamp := 5, content := .text "hi" } ∧
    (parse_transcript 0 "w" "w" 0
      [.blank, .valid (userLine "hi" 5)]).messages.head? =
      some { type := .user, timestamp := 5, content := .text "hi" } :=
  c7_first_line_start_time 0 "w" "w" 0 _ (userLine "hi" 5) [] _ rfl rfl

/-! ### Claim C8 -/

/-- C8: malformed-line robustness.  A file made of a valid user line, an
invalid-JSON line, and another valid user line parses (totally, with no
exception in the model) to exactly the two user Messages: the bad middle
line affects neither neighbour. -/
theorem c8_malformed_line_robustness :
    ∀ (now : Timestamp) (sid fp : String) (fs : Nat) (c1 c2 : String)
      (t1 t2 : Timestamp),
      (parse_transcript now sid fp fs
        [.valid (userLine c1 t1), .invalid,
         .valid (userLine c2 t2)]).messages =
        [{ type := .user, timestamp := t1, content := .text c1 },
         { type := .user, timestamp := t2, content := .text c2 }] ∧
      (parse_transcript now sid fp fs
        [.valid (userLine c1 t1), .invalid,
         .valid (userLine c2 t2)]).messages.length = 2 := by
  intro now sid fp fs c1 c2 t1 t2
  exact ⟨rfl, rfl⟩

/-! ### Claim C1 -/

/-- C1 counterexample: a file whose single decoded line carries a
timestamp but no type is counted by the fast scan (message_count 1,
start_time 5) yet rejected by the full parse's classifier (0 Messages,
start_time = the now-default 0), so the two entry points do not agree on
every input file. -/
theorem c1_counterexample :
    ¬((get_transcript_metadata 0 "s" "p" 0
          [.valid { timestamp := .valid 5 }]).message_count =
        (parse_transcript 0 "s" "p" 0
          [.valid { timestamp := .valid 5 }]).messages.length ∧
      (get_transcript_metadata 0 "s" "p" 0
          [.valid { timestamp := .valid 5 }]).start_time =
        (parse_transcript 0 "s" "p" 0
          [.valid { timestamp := .valid 5 }]).metadata.start_time) := by
  decide

/-- C1 amended: the fast metadata scan and the full parse agree on
message_count (which also equals the number of Messages of the full
parse's Conversation), start_time and end_time on every file all of whose
decoded lines are accepted by the classifier (carry a type and a
parseable timestamp). -/
theorem c1_fast_scan_agreement :
    ∀ (now : Timestamp) (sid fp : String) (fs : Nat) (file : List LineData),
      (∀ d ∈ decodeLines file, (parse_message_line d).isSome) →
      (get_transcript_metadata now sid fp fs file).message_count =
          (parse_transcript now sid fp fs file).messages.length ∧
      (get_transcript_metadata now sid fp fs file).message_count =
          (parse_transcript now sid fp fs file).metadata.message_count ∧
      (get_transcript_metadata now sid fp fs file).start_time =
          (parse_transcript now sid fp fs file).metadata.start_time ∧
      (get_transcript_metadata now sid fp fs file).end_time =
          (parse_transcript now sid fp fs file).metadata.end_time := by
  intro now sid fp fs file hall
  have efastc : (get_transcript_metadata now sid fp fs file).message_count =
      ((decodeLines file).foldl scanStep {}).message_count := rfl
  have efasts : (get_transcript_metadata now sid fp fs file).start_time =
      (((decodeLines file).foldl scanStep {}).start_time?).getD now := rfl
  have efaste : (get_transcript_metadata now sid fp fs file).end_time =
      ((decodeLines file).foldl scanStep {}).end_time? := rfl
  have efullm : (parse_transcript now sid fp fs file).messages =
      (parseLoop 0 {} (decodeLines file)).messages := rfl
  have efullc : (parse_transcript now sid fp fs file).metadata.message_count =
      (parseLoop 0 {} (decodeLines file)).messages.length := rfl
  have efulls : (parse_transcript now sid fp fs file).metadata.start_time =
      ((parseLoop 0 {} (decodeLines file)).start_time?).getD now := rfl
  have efulle : (parse_transcript now sid fp fs file).metadata.end_time =
      (parseLoop 0 {} (decodeLines file)).end_time? := rfl
  have hcount : ((decodeLines file).foldl scanStep {}).message_count =
      (parseLoop 0 {} (decodeLines file)).messages.length := by
    rw [scan_message_count, parseLoop_msg_count]
    have : (decodeLines file).countP
        (fun d => (parse_message_line d).isSome) =
        (decodeLines file).length :=
      List.countP_eq_length.mpr (by simpa using hall)
    simp [this]
  refine ⟨?_, ?_, ?_, ?_⟩
  · rw [efastc, efullm, hcount]
  · rw [efastc, efullc, hcount]
  · rw [efasts, efulls]
    rcases hdec : decodeLines file with _ | ⟨d, rest⟩
    · rfl
    · have hd : (parse_message_line d).isSome := by
        apply hall
        rw [hdec]
        exact List.mem_cons_self _ _
      rcases hp : parse_message_line d with _ | m
      · rw [hp] at hd; exact absurd hd (by simp)
      · have hfast : ((d :: rest).foldl scanStep
            ({} : ScanState)).start_time? = some m.timestamp := by
          rw [scan_start_time]
          show firstValidTs? (d :: rest) = some m.timestamp
          show orO (tsOf? d) (firstValidTs? rest) = some m.timestamp
          rw [accepted_tsOf hp]
          rfl
        have hstep : parseStep 1 ({} : ParseState) d =
            { messages := [m], tool_calls := process_tool_calls m [],
              start_time? := some m.timestamp,
              end_time? := some m.timestamp } := by
          simp [parseStep, hp]
        have hfull : (parseLoop 0 ({} : ParseState)
            (d :: rest)).start_time? = some m.timestamp := by
          show (parseLoop 1 (parseStep 1 {} d) rest).start_time? = _
          rw [parseLoop_start_time rest 1 _ (le_refl 1), hstep]
        rw [hfast, hfull]
  · rw [efaste, efulle, scan_end_time, parseLoop_end_time,
      lastTs_eq_lastValid (decodeLines file) hall]

/-- Witness for C1 at a concrete input: a two-line file of accepted user
messages on which both entry points agree. -/
theorem c1_fast_scan_agreement_witness :
    (get_transcript_metadata 0 "w" "w" 0
        [.valid (userLine "a" 1), .valid (userLine "b" 2)]).message_count =
      (parse_transcript 0 "w" "w" 0
        [.valid (userLine "a" 1), .valid (userLine "b" 2)]).messages.length ∧
    (get_transcript_metadata 0 "w" "w" 0
        [.valid (userLine "a" 1), .valid (userLine "b" 2)]).message_count =
      (parse_transcript 0 "w" "w" 0
        [.valid (userLine "a" 1),
         .valid (userLine "b" 2)]).metadata.message_count ∧
    (get_transcript_metadata 0 "w" "w" 0
        [.valid (userLine "a" 1), .valid (userLine "b" 2)]).start_time =
      (parse_transcript 0 "w" "w" 0
        [.valid (userLine "a" 1),
         .valid (userLine "b" 2)]).metadata.start_time ∧
    (get_transcript_metadata 0 "w" "w" 0
        [.valid (userLine "a" 1), .valid (userLine "b" 2)]).end_time =
      (parse_transcript 0 "w" "w" 0
        [.valid (userLine "a" 1),
         .valid (userLine "b" 2)]).metadata.end_time :=
  c1_fast_scan_agreement 0 "w" "w" 0
    [.valid (userLine "a" 1), .valid (userLine "b" 2)] (by decide)

/-! ### Claim C4 -/

/-- C4 counterexample: a tool_result whose payload carries an error string
("boom") but whose is_error flag is false closes the matching call with
status completed — not error — while still setting the error field, so
"status = error if the result declares an error flag OR carries an error
payload" does not hold. -/
theorem c4_counterexample :
    (parse_transcript 0 "s" "p" 0
      [.valid (toolUseLine "A" 1),
       .valid { type? := some "tool_result", timestamp := .valid 3,
                tool_name := some "A",
                tool_output_error := .str "boom" }]).tool_calls.map
        (fun tc => (tc.status, tc.error)) =
      [(ToolStatus.completed, some "boom")] ∧
    ToolStatus.completed ≠ ToolStatus.error ∧
    errTruthy (ErrField.str "boom") = true :=
  ⟨rfl, by decide, rfl⟩

/-- C4 amended: on matching a tool_result to an open ToolCall the
correlator sets end_time to the result's timestamp; it sets status = error
IFF the is_error flag is truthy (a payload-only error leaves status =
completed); the error field is set whenever the flag is truthy or the
payload carries a truthy error string, to str() of the payload's error
entry — the explicit string when present, else the generic non-empty
"Unknown error"/"None" — and is left unchanged otherwise. -/
theorem c4_match_effects :
    ∀ (m : Message) (d : RawLine) (n : String) (l1 l2 : List ToolCall)
      (tc : ToolCall),
      m.type = .tool_result → m.content = .record d →
      d.tool_name = some n → n ≠ "" → tc.name = n → tc.end_time = none →
      (∀ tc' ∈ l2, ¬(tc'.name = n ∧ tc'.end_time = none)) →
      ∃ tc', process_tool_calls m (l1 ++ tc :: l2) = l1 ++ tc' :: l2 ∧
        tc'.end_time = some m.timestamp ∧
        (tc'.status = .error ↔ d.is_error = true) ∧
        ((d.is_error = true ∨ errTruthy d.tool_output_error = true) →
          tc'.error = some (errMsgStr d.tool_output_error)) ∧
        ((d.tool_output_error = .absent ∨ d.tool_output_error = .null) →
          errMsgStr d.tool_output_error ≠ "") ∧
        (d.is_error = false → errTruthy d.tool_output_error = false →
          tc'.error = tc.error) := by
  intro m d n l1 l2 tc hty hc hn hne htc hte h2
  refine ⟨closeMatching d m.timestamp tc,
    process_result_match m d n l1 l2 tc hty hc hn hne htc hte h2,
    rfl, ?_, ?_, ?_, ?_⟩
  · rcases hie : d.is_error <;> simp [closeMatching, hie]
  · intro htrig
    have : (d.is_error || errTruthy d.tool_output_error) = true := by
      rcases htrig with h | h <;> simp [h]
    simp [closeMatching, this]
  · intro habs
    rcases habs with h | h <;> rw [h] <;> decide
  · intro hie herr
    simp [closeMatching, hie, herr]

/-- A tool_result record with the is_error flag set and no tool_output,
used as the C4 witness input. -/
def flaggedResultLine : RawLine :=
  { type? := some "tool_result", timestamp := .valid 7,
    tool_name := some "A", is_error := true }

/-- The open call the C4 witness closes. -/
def openCallA : ToolCall :=
  { id := "A_2", name := "A", start_time := 2 }

/-- Witness for C4 at a concrete input: an is_error result with no
tool_output closes the open call with status error and the generic
"Unknown error" message. -/
theorem c4_match_effects_witness :
    ∃ tc',
      process_tool_calls
        { type := .tool_result, timestamp := 7,
          content := .record flaggedResultLine }
        ([] ++ openCallA :: []) = [] ++ tc' :: [] ∧
      tc'.end_time = some 7 ∧
      (tc'.status = .error ↔ flaggedResultLine.is_error = true) ∧
      ((flaggedResultLine.is_error = true ∨
        errTruthy flaggedResultLine.tool_output_error = true) →
        tc'.error = some (errMsgStr flaggedResultLine.tool_output_error)) ∧
      ((flaggedResultLine.tool_output_error = .absent ∨
        flaggedResultLine.tool_output_error = .null) →
        errMsgStr flaggedResultLine.tool_output_error ≠ "") ∧
      (flaggedResultLine.is_error = false →
        errTruthy flaggedResultLine.tool_output_error = false →
        tc'.error = openCallA.error) :=
  c4_match_effects _ _ "A" [] [] _ rfl rfl rfl (by decide) rfl rfl (by simp)

/-! ### Claim C9 -/

/-- C9: filter AND semantics.  A SearchFilter with a (truthy) minimum
message count and a (non-empty) required-tool list matches exactly the
metadata satisfying both predicates — message_count ≥ the bound, and the
session file readable with some required tool name occurring in its
content — and the empty SearchFilter matches every metadata. -/
theorem c9_filter_and_semantics :
    (∀ (env : String → Option String) (m : ConversationMetadata) (n : Int)
        (ts : List String),
      n ≠ 0 → ts ≠ [] →
      (matches_filter env m
          { min_messages := some n, tools_used := some ts } = true ↔
        (n ≤ (m.message_count : Int) ∧
          ∃ content, env m.file_path = some content ∧
            ∃ t ∈ ts, strContains content t = true))) ∧
    (∀ (env : String → Option String) (m : ConversationMetadata),
      matches_filter env m {} = true) := by
  constructor
  · intro env m n ts hn hts
    have htse : ts.isEmpty = false := by
      rcases ts with _ | ⟨a, ts'⟩
      · exact absurd rfl hts
      · rfl
    rcases henv : env m.file_path with _ | content
    · simp [matches_filter, failsStartDate, failsEndDate,
        failsMinDuration, failsMaxDuration, failsMinMessages,
        failsMaxMessages, failsTextQuery, failsToolsUsed,
        henv, hn, htse]
    · simp only [matches_filter, failsStartDate, failsEndDate,
        failsMinDuration, failsMaxDuration, failsMinMessages,
        failsMaxMessages, failsTextQuery, failsToolsUsed, henv]
      simp [hn, htse, List.any_eq_true]
  · intro env m
    rfl

/-- A concrete file-content environment for the C9 witness. -/
def c9Env : String → Option String :=
  fun p => if p = "conv.jsonl" then some "used grep here" else none

/-- Witness for C9 at a concrete input: metadata with 5 messages whose
file content mentions "grep" matches the filter requiring at least 3
messages and the tool "grep". -/
theorem c9_filter_and_semantics_witness :
    matches_filter c9Env
      { file_path := "conv.jsonl", start_time := 0, message_count := 5 }
      { min_messages := some 3, tools_used := some ["grep"] } = true :=
  (c9_filter_and_semantics.1 c9Env
      { file_path := "conv.jsonl", start_time := 0, message_count := 5 }
      3 ["grep"] (by decide) (by decide)).mpr
    ⟨by decide, "used grep here", rfl, "grep", by decide, by decide⟩

/-! ### Claim C10 -/

/-- C10: a numeric bound set to 0 imposes no constraint, because each
bound is tested for Python truthiness before use: a SearchFilter whose
only set predicate is min_messages = 0, max_messages = 0, min_duration =
0 or max_duration = 0 matches every ConversationMetadata — including
max_messages = 0 against metadata with message_count > 0 — exactly like
an absent predicate. -/
theorem c10_zero_bound_no_constraint :
    ∀ (env : String → Option String) (m : ConversationMetadata),
      matches_filter env m { min_messages := some 0 } = true ∧
      matches_filter env m { max_messages := some 0 } = true ∧
      matches_filter env m { min_duration := some 0 } = true ∧
      matches_filter env m { max_duration := some 0 } = true := by
  intro env m
  exact ⟨rfl, rfl, rfl, rfl⟩

end ConvExplorer
